import Mathlib

/-!
Verification development for the multi-agent debate scheduler
(`src/agents/agent.py`, `src/orchestrator/orchestrator.py`, `src/main.py`).

The Python code is shallowly embedded: floats become `ℚ`, Python dicts for
transcript entries become the `Message` structure, memory-entry dicts become
`MemoryEntry`, and the mutable `PhilosopherAgent` / `DebateOrchestrator`
objects become records threaded explicitly through state-passing functions.
Randomness (`random.uniform`, `random.choices`, `random.sample`,
`random.random`, `random.choice`) is modelled by oracle parameters that are
consulted exactly where the source consults the random generator.  The LLM
calls (`generate_reply`) are modelled as `Agent → Option String` oracles:
`some` is a successful reply, `none` is a raised exception.  Python object
identity on agents coincides with name equality in every reachable state
(agent names are distinct), so agent comparisons are modelled structurally.
-/

attribute [local semireducible] Rat.add Rat.mul Rat.sub Rat.inv Rat.ofScientific

namespace Debate

/-! ## String helpers mirroring the Python string primitives.
These are structural-recursion implementations over the character list of a
`String` (the well-founded byte-position recursions of the core library do not
evaluate inside proofs). -/

/-- `Char`-list prefix test, mirroring the prefix step of Python substring search. -/
def isPrefixCh : List Char → List Char → Bool
  | [], _ => true
  | _ :: _, [] => false
  | c :: cs, d :: ds => c == d && isPrefixCh cs ds

/-- `Char`-list infix test: `isInfixCh n h` is Python `n in h` on the underlying text. -/
def isInfixCh : List Char → List Char → Bool
  | n, [] => isPrefixCh n []
  | n, d :: ds => isPrefixCh n (d :: ds) || isInfixCh n ds

/-- Python `needle in haystack` (substring containment). -/
def strContains (haystack needle : String) : Bool :=
  isInfixCh needle.data haystack.data

/-- Python `str.lower()` (ASCII case folding suffices for the program's data). -/
def strLower (s : String) : String :=
  ⟨s.data.map Char.toLower⟩

/-- Tokenizer for Python `str.split()`: split on whitespace runs, dropping
empties; `acc` holds the reversed characters of the token being read. -/
def splitWsAux : List Char → List Char → List String
  | [], acc => if acc = [] then [] else [⟨acc.reverse⟩]
  | c :: cs, acc =>
    if c.isWhitespace then
      (if acc = [] then splitWsAux cs [] else ⟨acc.reverse⟩ :: splitWsAux cs [])
    else splitWsAux cs (c :: acc)

/-- Python `str.split()` with no argument. -/
def splitWs (s : String) : List String :=
  splitWsAux s.data []

/-- Python `l[-n:]`. -/
def lastN (n : ℕ) (l : List α) : List α :=
  l.drop (l.length - n)

/-! ## Keyword tables (module-level literals in `agent.py` / `orchestrator.py`).
Python `dict.get(key, [])` becomes a total function returning `[]` on a missing
key.  Note the `philosophy_keywords` table is keyed `"existentialism"` while
every other table is keyed `"existentialist"`, exactly as in the source. -/

/-- `philosophy_keywords` in `compute_reactivity` (agent.py lines 37-43). -/
def philosophyKeywords (p : String) : List String :=
  if p = "deontology" then
    ["duty", "moral law", "categorical imperative", "universal", "principle", "kant", "obligation"]
  else if p = "consequentialism" then
    ["outcome", "consequence", "utility", "greatest good", "result", "mill", "happiness", "welfare"]
  else if p = "confucian" then
    ["virtue", "harmony", "social", "tradition", "ritual", "confucius", "relationship", "hierarchy"]
  else if p = "existentialism" then
    ["freedom", "authenticity", "choice", "existence", "responsibility", "sartre", "nietzsche", "meaning"]
  else if p = "buddhist" then
    ["suffering", "compassion", "mindfulness", "attachment", "enlightenment", "santideva", "interdependence"]
  else []

/-- `disagreement_patterns` in `compute_reactivity` (agent.py line 70). -/
def disagreementPatterns : List String :=
  ["disagree", "wrong", "incorrect", "however", "but", "reject", "false"]

/-- `challenge_patterns` in `compute_reactivity` (agent.py lines 77-83). -/
def challengePatterns (p : String) : List String :=
  if p = "deontology" then ["consequences matter", "outcomes", "flexible rules"]
  else if p = "consequentialism" then ["regardless of outcome", "duty", "absolute rule"]
  else if p = "confucian" then ["individual freedom", "break tradition", "social chaos"]
  else if p = "existentialist" then ["universal truth", "objective morality", "predetermined"]
  else if p = "buddhist" then ["permanent self", "absolute truth", "attachment necessary"]
  else []

/-- `agreement_patterns` in `_calculate_opinion_weight` (agent.py lines 151-157). -/
def agreementPatterns (p : String) : List String :=
  if p = "deontology" then ["duty", "universal law", "categorical imperative", "moral principle"]
  else if p = "consequentialism" then ["maximize happiness", "best outcome", "utility", "greater good"]
  else if p = "confucian" then ["harmony", "virtue", "proper conduct", "social order"]
  else if p = "existentialist" then ["freedom", "authentic", "create meaning", "individual choice"]
  else if p = "buddhist" then ["reduce suffering", "compassion", "interdependence", "middle way"]
  else []

/-- `opposing_philosophies` in `_calculate_opinion_weight` (agent.py lines 166-172). -/
def opposingPhilosophies (p : String) : List String :=
  if p = "deontology" then ["consequentialism", "existentialist"]
  else if p = "consequentialism" then ["deontology"]
  else if p = "confucian" then ["existentialist"]
  else if p = "existentialist" then ["deontology", "confucian"]
  else if p = "buddhist" then []
  else []

/-- Compelling-argument phrases in `_calculate_opinion_weight` (agent.py line 183). -/
def compellingPhrases : List String :=
  ["excellent point", "i see your point", "that\x27s true", "compelling argument"]

/-- `disagreement_words` in `_calculate_message_importance` (orchestrator.py line 228). -/
def disagreementWords : List String :=
  ["wrong", "disagree", "incorrect", "false", "reject"]

/-! ## Data model -/

/-- One entry of an agent's weighted memory (the dict built in `update_memory`). -/
structure MemoryEntry where
  content : String
  importance : ℚ
  opinion_weight : ℚ
  timestamp : ℕ
  decay_rounds : ℕ
  speaker_philosophy : Option String
  deriving DecidableEq, Repr

/-- A transcript entry (the dicts appended to `chat_history`; the `philosophy`
key is present only on agent responses, hence `Option`). -/
structure Message where
  speaker : String
  content : String
  round : ℕ
  philosophy : Option String
  deriving DecidableEq, Repr

/-- The mutable state of a `PhilosopherAgent` (the `goals`/`beliefs` fields and
the LLM configuration never influence the scheduling logic and are omitted). -/
structure Agent where
  name : String
  philosophy : String
  initial_system_message : String
  system_message : String
  cooldown : ℕ
  memory : List MemoryEntry
  reactivity_threshold : ℚ
  belief_drift_threshold : ℚ
  memory_decay_rate : ℚ
  deriving DecidableEq, Repr

instance : Inhabited Agent :=
  ⟨{ name := "", philosophy := "", initial_system_message := "", system_message := "",
     cooldown := 0, memory := [], reactivity_threshold := 0.3,
     belief_drift_threshold := 0.7, memory_decay_rate := 0.05 }⟩

/-- `PhilosopherAgent.__init__` with the constructor's default field values. -/
def mkAgent (name philosophy system_message : String) : Agent :=
  { name := name, philosophy := philosophy,
    initial_system_message := system_message, system_message := system_message,
    cooldown := 0, memory := [],
    reactivity_threshold := 0.3, belief_drift_threshold := 0.7,
    memory_decay_rate := 0.05 }

/-! ## ReactivityEngine: `compute_reactivity` (agent.py lines 25-100) -/

/-- The reactivity contribution of a single recent message (the body of the
`for message in recent_messages` loop).  Own messages are skipped via
`message.get('speaker') == self.name`. -/
def messageScore (a : Agent) (m : Message) : ℚ :=
  if m.speaker = a.name then 0
  else
    let content := strLower m.content
    (if strContains content (strLower a.name) then 0.5 else 0)
    + (if (philosophyKeywords (strLower a.philosophy)).any (fun k => strContains content k)
       then 0.3 else 0)
    + (if strContains content "?" then 0.2 else 0)
    + (if disagreementPatterns.any (fun p => strContains content p) then 0.2 else 0)
    + (if (challengePatterns (strLower a.philosophy)).any (fun c => strContains content c)
       then 0.4 else 0)

/-- The keyword set extracted from recent messages in `_get_relevant_memories`
(union of lowercase whitespace tokens; list membership models set membership). -/
def recentKeywords (msgs : List Message) : List String :=
  (lastN 3 msgs).foldl (fun acc m => acc ++ splitWs (strLower m.content)) []

/-- `_get_relevant_memories` (agent.py lines 188-205): an entry is relevant when
its distinct lowercase tokens meet the recent keyword set in more than 3 tokens
(`len(keywords.intersection(memory_words)) > 3`). -/
def relevantMemories (a : Agent) (recent : List Message) : List MemoryEntry :=
  let kws := recentKeywords recent
  a.memory.filter
    (fun mem => ((splitWs (strLower mem.content)).dedup.filter (fun w => kws.contains w)).length > 3)

/-- The raw reactivity accumulation of `compute_reactivity` before jitter and
clamping: message contributions over the last 3 entries plus
`0.2 × |opinion weight|` per relevant memory. -/
def computeReactivityRaw (a : Agent) (hist : List Message) : ℚ :=
  ((lastN 3 hist).map (messageScore a)).sum
  + ((relevantMemories a (lastN 3 hist)).map (fun mem => |mem.opinion_weight| * 0.2)).sum

/-- `compute_reactivity` with the `random.uniform(0, 0.15)` draw passed in as `j`.
An empty history short-circuits to 0 before any jitter is drawn. -/
def computeReactivity (a : Agent) (hist : List Message) (j : ℚ) : ℚ :=
  if hist = [] then 0
  else min (computeReactivityRaw a hist + j) 1

/-! ## MemoryStore: `update_memory` and friends (agent.py lines 110-222) -/

/-- `_calculate_opinion_weight` (agent.py lines 142-186).  The Python guard
`if speaker_philosophy and ...` (skip on `None`) becomes a match on `Option`. -/
def calculateOpinionWeight (a : Agent) (message : String) (speaker_philosophy : Option String) : ℚ :=
  let ml := strLower message
  let o1 := (agreementPatterns (strLower a.philosophy)).foldl
    (fun acc p => if strContains ml p then acc + 0.3 else acc) 0
  let o2 :=
    if (match speaker_philosophy with
        | some sp => (opposingPhilosophies (strLower a.philosophy)).contains (strLower sp)
        | none => false)
    then o1 - 0.2 else o1
  let o3 :=
    if (strContains ml "disagree" || strContains ml "wrong" || strContains ml "reject")
        && (strContains ml (strLower a.name) || strContains ml (strLower a.philosophy))
    then o2 - 0.4 else o2
  let o4 := if compellingPhrases.any (fun p => strContains ml p) then o3 + 0.2 else o3
  max (-1) (min 1 o4)

/-- `_clean_decayed_memories` (agent.py lines 220-222). -/
def cleanDecayedMemories (mem : List MemoryEntry) : List MemoryEntry :=
  mem.filter (fun m => m.importance > 0.2)

/-- The ranking key `x['importance'] + abs(x['opinion_weight'])` used for eviction. -/
def rankKey (m : MemoryEntry) : ℚ :=
  m.importance + |m.opinion_weight|

/-- Descending order on the eviction ranking key.  Python's `sorted(...,
reverse=True)` is a stable descending sort, which `List.insertionSort` with this
relation reproduces. -/
def rankGE (x y : MemoryEntry) : Prop :=
  rankKey y ≤ rankKey x

instance : DecidableRel rankGE := fun x y => inferInstanceAs (Decidable (rankKey y ≤ rankKey x))

instance : IsTotal MemoryEntry rankGE := ⟨fun x y => le_total (rankKey y) (rankKey x)⟩

instance : IsTrans MemoryEntry rankGE := ⟨fun _ _ _ h1 h2 => le_trans h2 h1⟩

/-- The `memory_entry` dict built by `update_memory` (age 0, timestamp =
current store length, opinion weight from `_calculate_opinion_weight`). -/
def newMemEntry (a : Agent) (message : String) (importance_score : ℚ)
    (speaker_philosophy : Option String) : MemoryEntry :=
  { content := message, importance := importance_score,
    opinion_weight := calculateOpinionWeight a message speaker_philosophy,
    timestamp := a.memory.length, decay_rounds := 0,
    speaker_philosophy := speaker_philosophy }

/-- `update_memory` (agent.py lines 110-140): append the new entry, drop entries
with importance ≤ 0.2, then if more than 15 remain keep the top 15 by
`importance + |opinion_weight|` descending. -/
def updateMemory (a : Agent) (message : String) (importance_score : ℚ)
    (speaker_philosophy : Option String) : Agent :=
  let mem1 := a.memory ++ [newMemEntry a message importance_score speaker_philosophy]
  let mem2 := cleanDecayedMemories mem1
  let mem3 := if 15 < mem2.length then (List.insertionSort rankGE mem2).take 15 else mem2
  { a with memory := mem3 }

/-- The per-entry effect of `_apply_belief_decay` (agent.py lines 207-218). -/
def decayEntry (rate : ℚ) (m : MemoryEntry) : MemoryEntry :=
  let dr := m.decay_rounds + 1
  let decay_factor := 1 - rate * dr
  { m with
    decay_rounds := dr,
    importance := m.importance * max 0.1 decay_factor,
    opinion_weight :=
      if 0.1 < |m.opinion_weight| then m.opinion_weight * 0.95 else m.opinion_weight }

/-- `_apply_belief_decay`: decays every entry in place; note it performs no
eviction (`_clean_decayed_memories` is called only from `update_memory`). -/
def applyBeliefDecay (a : Agent) : Agent :=
  { a with memory := a.memory.map (decayEntry a.memory_decay_rate) }

/-! ## BeliefDriftMonitor: `_check_belief_drift` / `_modify_system_prompt`
(agent.py lines 297-334) -/

/-- Add `v` onto key `k` of an association list, mirroring Python dict updates:
insertion order is the order of first occurrence. -/
def addScore (acc : List (String × ℚ)) (k : String) (v : ℚ) : List (String × ℚ) :=
  match acc with
  | [] => [(k, v)]
  | (k', v') :: rest => if k' = k then (k', v' + v) :: rest else (k', v') :: addScore rest k v

/-- The `philosophy_scores` dict of `_check_belief_drift`: entries with a
`speaker_philosophy` are grouped by its lowercase form, summing
`opinion_weight × importance`. -/
def philosophyScores (mem : List MemoryEntry) : List (String × ℚ) :=
  mem.foldl
    (fun acc m =>
      match m.speaker_philosophy with
      | some phil => addScore acc (strLower phil) (m.opinion_weight * m.importance)
      | none => acc)
    []

/-- Fixed-point decimal rendering standing in for Python's `f"{x:.2f}"` (the
binary-float rounding of CPython is not modelled; no verified property depends
on the rendered digits). -/
def format2 (q : ℚ) : String :=
  let n : ℤ := ⌊q * 100 + 1 / 2⌋
  let sign := if n < 0 then "-" else ""
  let m := n.natAbs
  sign ++ toString (m / 100) ++ "." ++ (if m % 100 < 10 then "0" else "") ++ toString (m % 100)

/-- The `modification_prompt` text built in `_modify_system_prompt`. -/
def modificationText (selfPhilosophy influenced : String) (score : ℚ) : String :=
  "\n        \n        [BELIEF EVOLUTION: Through extended dialogue and reflection, you have found merit in certain aspects of "
  ++ influenced ++ " philosophy. \n        While maintaining your core " ++ selfPhilosophy
  ++ " framework, you now incorporate insights about " ++ influenced
  ++ " perspectives \n        with an openness score of " ++ format2 score
  ++ ". You may reference these complementary ideas when they strengthen your arguments.]\n        "

/-- `_modify_system_prompt` (agent.py lines 319-334): the system message is
rebuilt from the *initial* message plus only this modification. -/
def modifySystemPrompt (a : Agent) (influenced : String) (score : ℚ) : Agent :=
  { a with system_message := a.initial_system_message ++ modificationText a.philosophy influenced score }

/-- The body of the drift loop of `_check_belief_drift`: apply the modifier
when the origin philosophy differs from the agent's own and its summed score
exceeds the drift threshold. -/
def driftStep (ag : Agent) (ps : String × ℚ) : Agent :=
  if ps.1 ≠ strLower ag.philosophy ∧ ag.belief_drift_threshold < ps.2 then
    modifySystemPrompt ag ps.1 ps.2
  else ag

/-- `_check_belief_drift` (agent.py lines 297-317). -/
def checkBeliefDrift (a : Agent) : Agent :=
  if a.memory = [] then a
  else (philosophyScores a.memory).foldl driftStep a

/-! ## Fallbacks and reflection (agent.py lines 251-295, 345-355) -/

/-- `get_philosophical_stance` (agent.py lines 345-355). -/
def getPhilosophicalStance (philosophy topic : String) : String :=
  let p := strLower philosophy
  if p = "deontology" then
    "From a deontological perspective on " ++ topic ++ ", we must ask: could this action be universalized as a moral law? Our duty is clear regardless of consequences..."
  else if p = "consequentialism" then
    "Regarding " ++ topic ++ ", we must focus on outcomes. What action produces the greatest happiness for the greatest number? The consequences determine the moral worth..."
  else if p = "confucian" then
    "When examining " ++ topic ++ ", we must consider how this affects social harmony and relationships. What would the exemplary person do in this context?..."
  else if p = "existentialist" then
    "Concerning " ++ topic ++ ", we must reject imposed moral systems. Each individual must authentically choose their own values. Who has the authority to dictate morality?..."
  else if p = "buddhist" then
    "From a Buddhist perspective on " ++ topic ++ ", we should ask: how does this increase or decrease suffering? All phenomena are interdependent and empty of inherent existence..."
  else "My philosophical view on " ++ topic ++ " is..."

/-- The deterministic fallback reflection used when the reflection LLM call fails. -/
def fallbackReflection (a : Agent) : String :=
  a.name ++ " reflects: This debate highlighted the importance of " ++ a.philosophy
  ++ " principles in addressing complex moral questions. The exchange of ideas has been valuable for understanding different ethical frameworks."

/-- `reflect` (agent.py lines 251-295).  The prompt construction feeds only the
LLM, which is abstracted by the oracle `refl`; `none` models a raised
exception, in which case `_check_belief_drift` (inside the `try`) is skipped
and the fallback text is returned. -/
def reflect (refl : Agent → Option String) (a : Agent) : Agent × String :=
  let a1 := applyBeliefDecay a
  match refl a1 with
  | some t => (checkBeliefDrift a1, a1.name ++ " reflects: " ++ t)
  | none => (a1, fallbackReflection a1)

/-! ## RoundScheduler: `DebateOrchestrator` (orchestrator.py) -/

/-- The mutable state of `DebateOrchestrator` (LLM configuration omitted). -/
structure Orchestrator where
  name : String
  agents : List Agent
  chat_history : List Message
  current_topic : String
  round_count : ℕ
  max_rounds : ℕ
  debate_active : Bool
  speakers_per_round : ℕ
  deriving DecidableEq, Repr

/-- `reduce_cooldown` (agent.py lines 340-343). -/
def reduceCooldown (a : Agent) : Agent :=
  if 0 < a.cooldown then { a with cooldown := a.cooldown - 1 } else a

/-- `collect_intent_to_speak` (orchestrator.py lines 65-83).  Every agent's
reactivity is computed (the i-th agent consuming jitter `jit i`); agents on
cooldown are excluded from the returned score list and instead have their
cooldown reduced by 1. -/
def collectIntentToSpeak (jit : ℕ → ℚ) (o : Orchestrator) : Orchestrator × List (Agent × ℚ) :=
  let scored := o.agents.enum.map (fun ia => (ia.2, computeReactivity ia.2 o.chat_history (jit ia.1)))
  let newAgents := scored.map (fun p => if p.1.cooldown = 0 then p.1 else reduceCooldown p.1)
  ({ o with agents := newAgents }, scored.filter (fun p => p.1.cooldown = 0))

/-- Descending order on intent scores, mirroring
`intent_scores.sort(key=lambda x: x[1], reverse=True)` (stable). -/
def scoreGE (x y : Agent × ℚ) : Prop :=
  y.2 ≤ x.2

instance : DecidableRel scoreGE := fun x y => inferInstanceAs (Decidable (y.2 ≤ x.2))

instance : IsTotal (Agent × ℚ) scoreGE := ⟨fun x y => le_total y.2 x.2⟩

instance : IsTrans (Agent × ℚ) scoreGE := ⟨fun _ _ _ h1 h2 => le_trans h2 h1⟩

/-- `random.sample(pool, count)`: `count` uniform draws without replacement,
modelled by an oracle `upick` giving the index of each draw into the shrinking
pool (taken mod the pool size, so any oracle yields a valid draw). -/
def drawUniform (upick : List Agent → ℕ) : List Agent → ℕ → List Agent
  | _, 0 => []
  | [], _ + 1 => []
  | p :: ps, c + 1 =>
    let pool := p :: ps
    let i := upick pool % pool.length
    let chosen := pool.getD i p
    chosen :: drawUniform upick (pool.eraseIdx i) c

/-- The weighted selection loop of `select_speakers`: each iteration calls
`random.choices(agents, weights=[score + 0.1 ...])` — modelled by the oracle
`pick`, which sees exactly the (agent, weight) pairs handed to the generator —
and removes the chosen agent from the remaining candidates. -/
def drawWeighted (pick : List (Agent × ℚ) → ℕ) : List (Agent × ℚ) → ℕ → List Agent
  | _, 0 => []
  | [], _ + 1 => []
  | p :: ps, c + 1 =>
    let pool := p :: ps
    let i := pick (pool.map (fun x => (x.1, x.2 + 0.1))) % pool.length
    let chosen := (pool.getD i p).1
    chosen :: drawWeighted pick (pool.filter (fun x => x.1 ≠ chosen)) c

/-- `select_speakers` (orchestrator.py lines 85-127), translated branch by
branch (including the unreachable `else` of `len(intent_scores) >= num_speakers`). -/
def selectSpeakers (upick : List Agent → ℕ) (pick : List (Agent × ℚ) → ℕ)
    (speakers_per_round : ℕ) (intent_scores : List (Agent × ℚ)) : List Agent :=
  if intent_scores = [] then []
  else
    let sorted := List.insertionSort scoreGE intent_scores
    let num_speakers := min speakers_per_round sorted.length
    if num_speakers ≤ sorted.length then
      let top_candidates := sorted.take (min (num_speakers * 2) sorted.length)
      if ((top_candidates.map Prod.snd).sum) = 0 then
        drawUniform upick (top_candidates.map Prod.fst) num_speakers
      else
        drawWeighted pick top_candidates num_speakers
    else sorted.map Prod.fst

/-- The speaker-selection algorithm exactly as the specification words it:
sort descending, pool = top `min(2k, n)`, uniform draws if the pool's weights
sum to zero, otherwise `k` weighted draws (weight `score + 0.1`) without
replacement, returning fewer than `k` when the pool runs out. -/
def specSelect (upick : List Agent → ℕ) (pick : List (Agent × ℚ) → ℕ)
    (k : ℕ) (scores : List (Agent × ℚ)) : List Agent :=
  let sorted := List.insertionSort scoreGE scores
  let pool := sorted.take (min (2 * k) sorted.length)
  if ((pool.map Prod.snd).sum) = 0 then drawUniform upick (pool.map Prod.fst) k
  else drawWeighted pick pool k

/-- `generate_agent_responses` (orchestrator.py lines 129-189).  The prompt
construction feeds only the LLM; `gen a = none` models a raised exception,
replaced by the deterministic stance fallback.  A successful reply is prefixed
with the agent's name unless it already starts with it. -/
def generateAgentResponses (gen : Agent → Option String) (topic : String)
    (speakers : List Agent) : List (Agent × String) :=
  speakers.map (fun a =>
    match gen a with
    | some r => (a, if isPrefixCh a.name.data r.data then r else a.name ++ ": " ++ r)
    | none => (a, a.name ++ ": " ++ getPhilosophicalStance a.philosophy topic))

/-- `_calculate_message_importance` (orchestrator.py lines 215-234). -/
def calculateMessageImportance (message : String) (a : Agent) : ℚ :=
  let imp : ℚ :=
    0.5
    + (if strContains (strLower message) (strLower a.philosophy) then 0.3 else 0)
    + (if strContains message "?" then 0.2 else 0)
    + (if disagreementWords.any (fun w => strContains (strLower message) w) then 0.2 else 0)
  min imp 1

/-- Per-agent effect of the first loop of `update_memory_and_reflection`:
`set_cooldown(rounds=2)` for the speaker of the response `ar`. -/
def cooldownStep (ar : Agent × String) (b : Agent) : Agent :=
  if b.name = ar.1.name then { b with cooldown := 2 } else b

/-- Per-agent effect of the second loop of `update_memory_and_reflection`:
every agent other than the speaker records the response. -/
def memoryStep (ar : Agent × String) (b : Agent) : Agent :=
  if b.name = ar.1.name then b
  else updateMemory b ar.2 (calculateMessageImportance ar.2 b) (some ar.1.philosophy)

/-- `update_memory_and_reflection` (orchestrator.py lines 191-213): append all
responses to the transcript and put each speaker on cooldown 2, then record
each response into every non-speaker's memory.  Agents are identified by name
(Python compares object identity; names are distinct). -/
def updateMemoryAndReflection (o : Orchestrator) (responses : List (Agent × String)) : Orchestrator :=
  let o1 := responses.foldl
    (fun acc ar =>
      { acc with
        chat_history := acc.chat_history ++
          [{ speaker := ar.1.name, content := ar.2, round := acc.round_count,
             philosophy := some ar.1.philosophy }],
        agents := acc.agents.map (cooldownStep ar) })
    o
  responses.foldl
    (fun acc ar => { acc with agents := acc.agents.map (memoryStep ar) })
    o1

/-- `should_continue_debate` (orchestrator.py lines 236-248).  Note the side
effect: when neither early exit fires, `collect_intent_to_speak` runs and
decrements every cooling-down agent's cooldown. -/
def shouldContinueDebate (jit : ℕ → ℚ) (o : Orchestrator) : Orchestrator × Bool :=
  if o.max_rounds ≤ o.round_count then (o, false)
  else if !o.debate_active then (o, false)
  else
    let oi := collectIntentToSpeak jit o
    (oi.1, decide (0 < (oi.2.filter (fun p => (0.1 : ℚ) < p.2)).length))

/-- The fixed intervention list of `generate_moderator_intervention`
(orchestrator.py lines 250-261); `ac` models `random.choice(self.agents)`. -/
def moderatorInterventions (o : Orchestrator) (ac : ℕ) : List String :=
  [ "Let\x27s hear from a different philosophical perspective. How might "
      ++ (o.agents.getD (ac % o.agents.length) default).philosophy ++ " approach this?",
    "Can someone provide a concrete example to illustrate this point?",
    "I notice we have some disagreement here. Can we identify the core issue?",
    "How might we find common ground between these positions?",
    "What are the practical implications of this philosophical stance?",
    "We\x27re " ++ toString o.round_count ++ " rounds into our discussion of \x27"
      ++ o.current_topic ++ "\x27. What new insights have emerged?" ]

/-- `generate_moderator_intervention`: `random.choice(interventions)` with the
choice index supplied by the oracle `ic`. -/
def generateModeratorIntervention (o : Orchestrator) (ic ac : ℕ) : String :=
  (moderatorInterventions o ac).getD (ic % (moderatorInterventions o ac).length) ""

/-- `end_debate` (orchestrator.py lines 263-283): deactivate the session and
run `reflect` once per agent (decay, LLM reflection or fallback, drift check),
returning the per-agent reflection texts of the summary. -/
def endDebate (refl : Agent → Option String) (o : Orchestrator) :
    Orchestrator × List (String × String) :=
  let o1 := { o with debate_active := false }
  let pairs := o1.agents.map (fun a => (a.name, reflect refl a))
  ({ o1 with agents := pairs.map (fun p => p.2.1) },
   pairs.map (fun p => (p.1, p.2.2)))

/-- The round-result dict of `run_debate_round`. -/
structure RoundResult where
  round : ℕ
  speakers : List String
  responses : List (Agent × String)
  intent_scores : List (Agent × ℚ)
  continue_flag : Bool
  deriving Repr

/-- The random draws consumed by one `run_debate_round` call, in consumption
order: jitter streams for the three `collect_intent_to_speak` evaluations
(initial `should_continue_debate`, step 3, and the final `continue` field),
the selection oracles, the generation/reflection LLM oracles, and the
moderator draws. -/
structure RoundOracles where
  jitA : ℕ → ℚ
  jitB : ℕ → ℚ
  jitC : ℕ → ℚ
  upick : List Agent → ℕ
  pick : List (Agent × ℚ) → ℕ
  gen : Agent → Option String
  refl : Agent → Option String
  modRand : ℚ
  interChoice : ℕ
  agentChoice : ℕ

/-- `run_debate_round` (orchestrator.py lines 285-335).  Returns the new state
and `some` round result, or `none` when one of the three `end_debate` exits is
taken (in which case the state is the ended session). -/
def runDebateRound (oc : RoundOracles) (o : Orchestrator) : Orchestrator × Option RoundResult :=
  let sc0 := shouldContinueDebate oc.jitA o
  if !sc0.2 then ((endDebate oc.refl sc0.1).1, none)
  else
    let o1 := { sc0.1 with round_count := sc0.1.round_count + 1 }
    let ci := collectIntentToSpeak oc.jitB o1
    if ci.2 = [] then ((endDebate oc.refl ci.1).1, none)
    else
      let selected := selectSpeakers oc.upick oc.pick ci.1.speakers_per_round ci.2
      if selected = [] then ((endDebate oc.refl ci.1).1, none)
      else
        let responses := generateAgentResponses oc.gen ci.1.current_topic selected
        let o2 := updateMemoryAndReflection ci.1 responses
        let o3 :=
          if oc.modRand < 0.3 then
            { o2 with chat_history := o2.chat_history ++
                [{ speaker := o2.name,
                   content := generateModeratorIntervention o2 oc.interChoice oc.agentChoice,
                   round := o2.round_count, philosophy := none }] }
          else o2
        let sc1 := shouldContinueDebate oc.jitC o3
        (sc1.1, some
          { round := sc1.1.round_count, speakers := selected.map Agent.name,
            responses := responses, intent_scores := ci.2, continue_flag := sc1.2 })

/-- `create_philosophers` (main.py lines 38-92); persona prompt texts are
external (`get_prompt`) and passed in as `prompts`.  Note the fourth agent's
persona tag is `"existentialist"`. -/
def createPhilosophers (prompts : String → String) : List Agent :=
  [ mkAgent "Kant" "deontology" (prompts "kant"),
    mkAgent "Mill" "consequentialism" (prompts "mill"),
    mkAgent "Confucian_Sage" "confucian" (prompts "confucian"),
    mkAgent "Existentialist" "existentialist" (prompts "existentialist"),
    mkAgent "Santideva" "buddhist" (prompts "santideva") ]

/-! ## General lemmas -/

theorem messageScore_nonneg (a : Agent) (m : Message) : 0 ≤ messageScore a m := by
  unfold messageScore
  split
  · exact le_refl 0
  · refine add_nonneg (add_nonneg (add_nonneg (add_nonneg ?_ ?_) ?_) ?_) ?_ <;>
      split <;> norm_num

theorem computeReactivityRaw_nonneg (a : Agent) (hist : List Message) :
    0 ≤ computeReactivityRaw a hist := by
  unfold computeReactivityRaw
  refine add_nonneg (List.sum_nonneg ?_) (List.sum_nonneg ?_)
  · intro x hx
    obtain ⟨m, _, rfl⟩ := List.mem_map.mp hx
    exact messageScore_nonneg a m
  · intro x hx
    obtain ⟨m, _, rfl⟩ := List.mem_map.mp hx
    positivity

/-! ## C3: reactivity score bounds -/

/-- C3: for every participant and transcript, `compute_reactivity` returns a
score in `[0,1]` (given the nonnegative `random.uniform(0, 0.15)` jitter draw),
and an empty transcript scores exactly 0.  The embedding is a pure function of
the agent, history and jitter draw, so scoring has no other side effect. -/
theorem reactivity_score_in_unit_interval (a : Agent) (hist : List Message) (j : ℚ)
    (hj0 : 0 ≤ j) (_hj1 : j < 0.15) :
    0 ≤ computeReactivity a hist j ∧ computeReactivity a hist j ≤ 1 ∧
    computeReactivity a [] j = 0 := by
  refine ⟨?_, ?_, rfl⟩
  · unfold computeReactivity
    split
    · exact le_refl 0
    · exact le_min (add_nonneg (computeReactivityRaw_nonneg a hist) hj0) (by norm_num)
  · unfold computeReactivity
    split
    · norm_num
    · exact min_le_right _ _

/-- Witness for C3 at a concrete agent, transcript and jitter draw. -/
theorem reactivity_score_in_unit_interval_witness :
    (0 : ℚ) ≤ 0.1 ∧ (0.1 : ℚ) < 0.15 ∧
    (0 ≤ computeReactivity (mkAgent "Kant" "deontology" "p")
        [{ speaker := "Mill", content := "but why?", round := 0, philosophy := none }] 0.1 ∧
     computeReactivity (mkAgent "Kant" "deontology" "p")
        [{ speaker := "Mill", content := "but why?", round := 0, philosophy := none }] 0.1 ≤ 1 ∧
     computeReactivity (mkAgent "Kant" "deontology" "p") [] 0.1 = 0) :=
  ⟨by norm_num, by norm_num,
   reactivity_score_in_unit_interval (mkAgent "Kant" "deontology" "p")
     [{ speaker := "Mill", content := "but why?", round := 0, philosophy := none }] 0.1
     (by norm_num) (by norm_num)⟩

/-! ## C10: keyword-table key mismatch for the existentialist persona -/

/-- C10: a persona tag missing from a keyword table silently yields `[]`; the
trigger table is keyed `"existentialism"` but the challenge/agreement/opposing
tables are keyed `"existentialist"`, and `create_philosophers` builds the agent
with tag `"existentialist"`, so that participant's trigger-keyword bonus of
+0.3 can never fire: its message score reduces to the name, question,
disagreement and challenge terms only. -/
theorem existentialist_trigger_lookup_empty (a : Agent) (m : Message)
    (prompts : String → String) (h : strLower a.philosophy = "existentialist") :
    philosophyKeywords "existentialist" = [] ∧
    (∀ p : String, p ≠ "deontology" → p ≠ "consequentialism" → p ≠ "confucian" →
      p ≠ "existentialism" → p ≠ "buddhist" → philosophyKeywords p = []) ∧
    (createPhilosophers prompts).map Agent.philosophy =
      ["deontology", "consequentialism", "confucian", "existentialist", "buddhist"] ∧
    challengePatterns "existentialist" = ["universal truth", "objective morality", "predetermined"] ∧
    agreementPatterns "existentialist" = ["freedom", "authentic", "create meaning", "individual choice"] ∧
    opposingPhilosophies "existentialist" = ["deontology", "confucian"] ∧
    messageScore a m =
      (if m.speaker = a.name then 0
       else
        (if strContains (strLower m.content) (strLower a.name) then 0.5 else 0)
        + (if strContains (strLower m.content) "?" then 0.2 else 0)
        + (if disagreementPatterns.any (fun p => strContains (strLower m.content) p) then 0.2 else 0)
        + (if (challengePatterns "existentialist").any (fun c => strContains (strLower m.content) c)
           then 0.4 else 0)) := by
  have hk : philosophyKeywords "existentialist" = [] := by decide
  refine ⟨hk, ?_, rfl, by decide, by decide, by decide, ?_⟩
  · intro p h1 h2 h3 h4 h5
    simp [philosophyKeywords, h1, h2, h3, h4, h5]
  · unfold messageScore
    rw [h, hk]
    simp only [List.any_nil, Bool.false_eq_true, if_false, add_zero]

/-- Witness for C10 at the concrete existentialist participant and a message
full of `"existentialism"`-table trigger words that nevertheless score no +0.3. -/
theorem existentialist_trigger_lookup_empty_witness :
    strLower (mkAgent "Existentialist" "existentialist" "p").philosophy = "existentialist" ∧
    messageScore (mkAgent "Existentialist" "existentialist" "p")
      { speaker := "Mill", content := "freedom authenticity choice existence meaning", round := 0,
        philosophy := none } = 0 :=
  ⟨by decide,
   by
    have h := existentialist_trigger_lookup_empty
      (mkAgent "Existentialist" "existentialist" "p")
      { speaker := "Mill", content := "freedom authenticity choice existence meaning", round := 0,
        philosophy := none }
      (fun _ => "p") (by decide)
    rw [h.2.2.2.2.2.2]
    decide⟩

/-! ## C7: the name + trigger-keyword scenario -/

/-- C7: when the recent transcript is a single entry by another speaker whose
content mentions the participant's name and a persona trigger keyword but no
question mark, no disagreement keyword and no challenge keyword, the raw
accumulation before jitter and clamping is `0.5 + 0.3 = 0.8`, plus exactly
`0.2 × |opinion weight|` for each relevant memory entry. -/
theorem reactivity_scenario_accumulation (a : Agent) (m : Message)
    (hspeaker : ¬ m.speaker = a.name)
    (hname : strContains (strLower m.content) (strLower a.name) = true)
    (hkw : (philosophyKeywords (strLower a.philosophy)).any
      (fun k => strContains (strLower m.content) k) = true)
    (hq : strContains (strLower m.content) "?" = false)
    (hd : disagreementPatterns.any (fun p => strContains (strLower m.content) p) = false)
    (hc : (challengePatterns (strLower a.philosophy)).any
      (fun c => strContains (strLower m.content) c) = false) :
    computeReactivityRaw a [m] =
      0.8 + ((relevantMemories a [m]).map (fun mem => |mem.opinion_weight| * 0.2)).sum := by
  have hms : messageScore a m = 0.8 := by
    unfold messageScore
    rw [if_neg hspeaker]
    simp only [hname, hkw, hq, hd, hc, if_true, Bool.false_eq_true, if_false]
    norm_num
  have hl : lastN 3 [m] = [m] := rfl
  unfold computeReactivityRaw
  rw [hl, List.map_singleton, List.sum_singleton, hms]

/-- Witness for C7: Kant is named together with the trigger keyword `"duty"`
in a message with no question, disagreement or challenge, and no relevant
memory; the raw accumulation is exactly 0.8. -/
theorem reactivity_scenario_accumulation_witness :
    ¬ (("Mill" : String) = "Kant") ∧
    computeReactivityRaw (mkAgent "Kant" "deontology" "p")
      [{ speaker := "Mill", content := "Kant speaks of duty", round := 0, philosophy := none }]
      = 0.8 := by
  refine ⟨by decide, ?_⟩
  have h := reactivity_scenario_accumulation (mkAgent "Kant" "deontology" "p")
    { speaker := "Mill", content := "Kant speaks of duty", round := 0, philosophy := none }
    (by decide) (by decide) (by decide) (by decide) (by decide) (by decide)
  rw [h]
  decide

/-! ## C8: generation failures degrade to the stance fallback -/

/-- C8: `generate_agent_responses` produces one response per selected speaker
in selection order regardless of failures; a speaker whose generation call
fails gets the deterministic fallback `name ++ ": " ++ stance(persona, topic)`;
a failing reflection call likewise degrades to the deterministic fallback
reflection instead of aborting. -/
theorem generateAgentResponses_map_fst (gen : Agent → Option String) (topic : String) :
    ∀ speakers : List Agent,
      (generateAgentResponses gen topic speakers).map Prod.fst = speakers := by
  intro speakers
  induction speakers with
  | nil => rfl
  | cons s ss ih =>
    unfold generateAgentResponses at ih ⊢
    simp only [List.map_cons, List.cons.injEq]
    exact ⟨by cases gen s <;> rfl, ih⟩

theorem generation_failure_is_localized (gen refl : Agent → Option String)
    (topic : String) (speakers : List Agent) (a : Agent)
    (hmem : a ∈ speakers) (hfail : gen a = none)
    (hrfail : refl (applyBeliefDecay a) = none) :
    (generateAgentResponses gen topic speakers).map Prod.fst = speakers ∧
    (a, a.name ++ ": " ++ getPhilosophicalStance a.philosophy topic) ∈
      generateAgentResponses gen topic speakers ∧
    reflect refl a = (applyBeliefDecay a, fallbackReflection (applyBeliefDecay a)) := by
  refine ⟨generateAgentResponses_map_fst gen topic speakers, ?_, ?_⟩
  · have h := List.mem_map_of_mem
      (fun b => match gen b with
        | some r => (b, if isPrefixCh b.name.data r.data then r else b.name ++ ": " ++ r)
        | none => (b, b.name ++ ": " ++ getPhilosophicalStance b.philosophy topic)) hmem
    simp only [hfail] at h
    exact h
  · simp only [reflect, hrfail]

/-- Witness for C8: a single selected speaker whose generation and reflection
calls both fail. -/
theorem generation_failure_is_localized_witness :
    ((mkAgent "Kant" "deontology" "p") ∈ [mkAgent "Kant" "deontology" "p"]) ∧
    (generateAgentResponses (fun _ => none) "lying" [mkAgent "Kant" "deontology" "p"]).map Prod.fst
      = [mkAgent "Kant" "deontology" "p"] ∧
    (mkAgent "Kant" "deontology" "p",
      "Kant" ++ ": " ++ getPhilosophicalStance "deontology" "lying") ∈
      generateAgentResponses (fun _ => none) "lying" [mkAgent "Kant" "deontology" "p"] ∧
    reflect (fun _ => none) (mkAgent "Kant" "deontology" "p") =
      (applyBeliefDecay (mkAgent "Kant" "deontology" "p"),
       fallbackReflection (applyBeliefDecay (mkAgent "Kant" "deontology" "p"))) :=
  ⟨List.mem_singleton.mpr rfl,
   generation_failure_is_localized (fun _ => none) (fun _ => none) "lying"
     [mkAgent "Kant" "deontology" "p"] (mkAgent "Kant" "deontology" "p")
     (List.mem_singleton.mpr rfl) rfl rfl⟩

/-! ## C6: cooldown exclusion and decrement -/

theorem getD_mem : ∀ (l : List α) (i : ℕ) (d : α), i < l.length → l.getD i d ∈ l := by
  intro l
  induction l with
  | nil => intro i d h; simp at h
  | cons x xs ih =>
    intro i d h
    cases i with
    | zero => exact List.mem_cons_self x xs
    | succ n => exact List.mem_cons_of_mem x (ih n d (by simpa using h))

theorem eraseIdx_subset' : ∀ (l : List α) (i : ℕ), l.eraseIdx i ⊆ l := by
  intro l
  induction l with
  | nil => intro i x hx; simp at hx
  | cons y ys ih =>
    intro i x hx
    cases i with
    | zero => exact List.mem_cons_of_mem y hx
    | succ n =>
      rcases List.mem_cons.mp hx with h | h
      · exact h ▸ List.mem_cons_self y ys
      · exact List.mem_cons_of_mem y (ih n h)

theorem drawUniform_subset (u : List Agent → ℕ) :
    ∀ (c : ℕ) (pool : List Agent) (s : Agent), s ∈ drawUniform u pool c → s ∈ pool := by
  intro c
  induction c with
  | zero => intro pool s h; simp [drawUniform] at h
  | succ n ih =>
    intro pool s h
    cases pool with
    | nil => simp [drawUniform] at h
    | cons p ps =>
      unfold drawUniform at h
      rcases List.mem_cons.mp h with h' | h'
      · exact h' ▸ getD_mem (p :: ps) _ p (Nat.mod_lt _ (by simp))
      · exact eraseIdx_subset' (p :: ps) _ (ih _ s h')

theorem drawWeighted_subset (pk : List (Agent × ℚ) → ℕ) :
    ∀ (c : ℕ) (pool : List (Agent × ℚ)) (s : Agent),
      s ∈ drawWeighted pk pool c → ∃ q ∈ pool, q.1 = s := by
  intro c
  induction c with
  | zero => intro pool s h; simp [drawWeighted] at h
  | succ n ih =>
    intro pool s h
    cases pool with
    | nil => simp [drawWeighted] at h
    | cons p ps =>
      unfold drawWeighted at h
      rcases List.mem_cons.mp h with h' | h'
      · exact ⟨(p :: ps).getD (pk ((p :: ps).map fun x => (x.1, x.2 + 0.1)) % (p :: ps).length) p,
          getD_mem (p :: ps) _ p (Nat.mod_lt _ (by simp)), h'.symm⟩
      · obtain ⟨q, hq, hqs⟩ := ih _ s h'
        exact ⟨q, List.mem_of_mem_filter hq, hqs⟩

theorem selectSpeakers_mem (u : List Agent → ℕ) (pk : List (Agent × ℚ) → ℕ)
    (k : ℕ) (scores : List (Agent × ℚ)) (s : Agent)
    (hs : s ∈ selectSpeakers u pk k scores) : ∃ q ∈ scores, q.1 = s := by
  simp only [selectSpeakers] at hs
  split at hs
  · simp at hs
  · split at hs
    · split at hs
      · obtain ⟨q, hq, hqs⟩ := List.mem_map.mp (drawUniform_subset u _ _ s hs)
        refine ⟨q, ?_, hqs⟩
        exact ((List.perm_insertionSort scoreGE scores).mem_iff).mp
          (List.take_subset _ _ hq)
      · obtain ⟨q, hq, hqs⟩ := drawWeighted_subset pk _ _ s hs
        refine ⟨q, ?_, hqs⟩
        exact ((List.perm_insertionSort scoreGE scores).mem_iff).mp
          (List.take_subset _ _ hq)
    · obtain ⟨q, hq, hqs⟩ := List.mem_map.mp hs
      exact ⟨q, ((List.perm_insertionSort scoreGE scores).mem_iff).mp hq, hqs⟩

theorem enum_map_snd_comp (l : List α) (h : α → β) :
    l.enum.map (h ∘ Prod.snd) = l.map h := by
  rw [← List.map_map, List.enum_map_snd]

/-- C6: an agent on cooldown never enters the score list returned by
`collect_intent_to_speak` and never appears in the selected speakers; instead
its cooldown is decremented by exactly 1 during that scoring pass (every
member of the score list has cooldown 0, so a cooling-down agent state is
never among them). -/
theorem cooldown_excludes_and_decrements (jit : ℕ → ℚ) (upick : List Agent → ℕ)
    (pick : List (Agent × ℚ) → ℕ) (k : ℕ) (o : Orchestrator)
    (p : Agent × ℚ) (hp : p ∈ (collectIntentToSpeak jit o).2)
    (s : Agent) (hs : s ∈ selectSpeakers upick pick k (collectIntentToSpeak jit o).2) :
    p.1.cooldown = 0 ∧ s.cooldown = 0 ∧
    (collectIntentToSpeak jit o).1.agents =
      o.agents.map (fun a => if a.cooldown = 0 then a else { a with cooldown := a.cooldown - 1 }) := by
  refine ⟨?_, ?_, ?_⟩
  · unfold collectIntentToSpeak at hp
    simpa using (List.mem_filter.mp hp).2
  · obtain ⟨q, hq, hqs⟩ := selectSpeakers_mem upick pick k _ s hs
    unfold collectIntentToSpeak at hq
    have := (List.mem_filter.mp hq).2
    simp only [decide_eq_true_eq] at this
    exact hqs ▸ this
  · unfold collectIntentToSpeak
    simp only [List.map_map]
    have heq : ((fun p : Agent × ℚ => if p.1.cooldown = 0 then p.1 else reduceCooldown p.1) ∘
        (fun ia : ℕ × Agent => (ia.2, computeReactivity ia.2 o.chat_history (jit ia.1)))) =
        ((fun a : Agent => if a.cooldown = 0 then a else { a with cooldown := a.cooldown - 1 }) ∘
          Prod.snd) := by
      funext ia
      by_cases h : ia.2.cooldown = 0
      · simp [h]
      · simp only [Function.comp, h, if_false]
        unfold reduceCooldown
        rw [if_pos (Nat.pos_of_ne_zero h)]
    rw [heq, enum_map_snd_comp]

/-- Witness for C6: a two-agent state in which Mill is cooling down; Mill is
absent from the score list and the selection, and its cooldown drops from 2 to 1. -/
theorem cooldown_excludes_and_decrements_witness :
    ((mkAgent "Kant" "deontology" "p", (1 : ℚ)/5) ∈
      (collectIntentToSpeak (fun _ => 0)
        { name := "Moderator",
          agents := [mkAgent "Kant" "deontology" "p",
                     { mkAgent "Mill" "consequentialism" "q" with cooldown := 2 }],
          chat_history := [{ speaker := "Moderator", content := "why?", round := 0, philosophy := none }],
          current_topic := "t", round_count := 0, max_rounds := 10,
          debate_active := true, speakers_per_round := 2 }).2) ∧
    (mkAgent "Kant" "deontology" "p") ∈
      selectSpeakers (fun _ => 0) (fun _ => 0) 2
        ((collectIntentToSpeak (fun _ => 0)
          { name := "Moderator",
            agents := [mkAgent "Kant" "deontology" "p",
                       { mkAgent "Mill" "consequentialism" "q" with cooldown := 2 }],
            chat_history := [{ speaker := "Moderator", content := "why?", round := 0, philosophy := none }],
            current_topic := "t", round_count := 0, max_rounds := 10,
            debate_active := true, speakers_per_round := 2 }).2) ∧
    ((mkAgent "Kant" "deontology" "p").cooldown = 0 ∧
     (mkAgent "Kant" "deontology" "p").cooldown = 0 ∧
     (collectIntentToSpeak (fun _ => 0)
        { name := "Moderator",
          agents := [mkAgent "Kant" "deontology" "p",
                     { mkAgent "Mill" "consequentialism" "q" with cooldown := 2 }],
          chat_history := [{ speaker := "Moderator", content := "why?", round := 0, philosophy := none }],
          current_topic := "t", round_count := 0, max_rounds := 10,
          debate_active := true, speakers_per_round := 2 }).1.agents =
      [mkAgent "Kant" "deontology" "p",
       { mkAgent "Mill" "consequentialism" "q" with cooldown := 2 }].map
        (fun a => if a.cooldown = 0 then a else { a with cooldown := a.cooldown - 1 })) :=
  ⟨by decide, by decide,
   cooldown_excludes_and_decrements (fun _ => 0) (fun _ => 0) (fun _ => 0) 2
     { name := "Moderator",
       agents := [mkAgent "Kant" "deontology" "p",
                  { mkAgent "Mill" "consequentialism" "q" with cooldown := 2 }],
       chat_history := [{ speaker := "Moderator", content := "why?", round := 0, philosophy := none }],
       current_topic := "t", round_count := 0, max_rounds := 10,
       debate_active := true, speakers_per_round := 2 }
     (mkAgent "Kant" "deontology" "p", (1 : ℚ)/5) (by decide)
     (mkAgent "Kant" "deontology" "p") (by decide)⟩

/-! ## C4: memory-store invariants -/

theorem calculateOpinionWeight_abs_le (a : Agent) (msg : String) (sp : Option String) :
    |calculateOpinionWeight a msg sp| ≤ 1 := by
  unfold calculateOpinionWeight
  rw [abs_le]
  exact ⟨le_max_left _ _, max_le (by norm_num) (min_le_left _ _)⟩

theorem decayEntry_bounds (rate : ℚ) (m : MemoryEntry) (hrate : 0 ≤ rate)
    (h1 : 0 < m.importance) (h2 : m.importance ≤ 1) (h3 : |m.opinion_weight| ≤ 1) :
    0 < (decayEntry rate m).importance ∧ (decayEntry rate m).importance ≤ 1 ∧
    |(decayEntry rate m).opinion_weight| ≤ 1 := by
  unfold decayEntry
  refine ⟨mul_pos h1 (lt_of_lt_of_le (by norm_num) (le_max_left (0.1 : ℚ) _)), ?_, ?_⟩
  · have hfac0 : (0 : ℚ) ≤ max 0.1 (1 - rate * (m.decay_rounds + 1 : ℕ)) :=
      le_trans (by norm_num) (le_max_left _ _)
    have hfac1 : max (0.1 : ℚ) (1 - rate * (m.decay_rounds + 1 : ℕ)) ≤ 1 := by
      refine max_le (by norm_num) ?_
      have : (0 : ℚ) ≤ rate * (m.decay_rounds + 1 : ℕ) := by positivity
      linarith
    exact mul_le_one₀ h2 hfac0 hfac1
  · split
    · rw [abs_mul, abs_of_pos (by norm_num : (0 : ℚ) < 0.95)]
      nlinarith [abs_nonneg m.opinion_weight]
    · exact h3

theorem updateMemory_mem_sub (a : Agent) (msg : String) (imp : ℚ) (sp : Option String) :
    ∀ m ∈ (updateMemory a msg imp sp).memory, m ∈ a.memory ++ [newMemEntry a msg imp sp] := by
  intro m hm
  simp only [updateMemory] at hm
  split at hm
  · exact List.mem_of_mem_filter
      (((List.perm_insertionSort rankGE _).mem_iff).mp (List.take_subset _ _ hm))
  · exact List.mem_of_mem_filter hm

/-- C4: after a `record` (`update_memory`) or a decay step, every surviving
entry has importance in `(0,1]` and opinion weight in `[-1,1]` (given in-range
inputs, which `_calculate_message_importance` — the only in-program source of
importance scores — always provides), and the store holds at most 15 entries;
when the cleaned store exceeds capacity, the survivors are the 15-prefix of a
descending sort by `importance + |opinion weight|`. -/
theorem memory_invariants_after_update (a : Agent) (msg : String) (imp : ℚ)
    (sp : Option String) (msg2 : String) (b : Agent)
    (himp0 : 0 < imp) (himp1 : imp ≤ 1)
    (hmem : ∀ m ∈ a.memory, 0 < m.importance ∧ m.importance ≤ 1 ∧ |m.opinion_weight| ≤ 1)
    (hlen : a.memory.length ≤ 15) (hrate : 0 ≤ a.memory_decay_rate) :
    ((updateMemory a msg imp sp).memory.length ≤ 15 ∧
      ∀ m ∈ (updateMemory a msg imp sp).memory,
        0 < m.importance ∧ m.importance ≤ 1 ∧ |m.opinion_weight| ≤ 1) ∧
    ((applyBeliefDecay a).memory.length ≤ 15 ∧
      ∀ m ∈ (applyBeliefDecay a).memory,
        0 < m.importance ∧ m.importance ≤ 1 ∧ |m.opinion_weight| ≤ 1) ∧
    (15 < (cleanDecayedMemories (a.memory ++ [newMemEntry a msg imp sp])).length →
      ∃ l, (cleanDecayedMemories (a.memory ++ [newMemEntry a msg imp sp])).Perm l ∧
        l.Sorted rankGE ∧ (updateMemory a msg imp sp).memory = l.take 15) ∧
    (0 < calculateMessageImportance msg2 b ∧ calculateMessageImportance msg2 b ≤ 1) := by
  refine ⟨⟨?_, ?_⟩, ⟨?_, ?_⟩, ?_, ?_, ?_⟩
  · simp only [updateMemory]
    split
    · rw [List.length_take]
      exact min_le_left _ _
    · omega
  · intro m hm
    rcases List.mem_append.mp (updateMemory_mem_sub a msg imp sp m hm) with h | h
    · exact hmem m h
    · rw [List.mem_singleton.mp h]
      exact ⟨himp0, himp1, calculateOpinionWeight_abs_le a msg sp⟩
  · unfold applyBeliefDecay
    simpa using hlen
  · intro m hm
    unfold applyBeliefDecay at hm
    obtain ⟨m0, hm0, rfl⟩ := List.mem_map.mp hm
    obtain ⟨h1, h2, h3⟩ := hmem m0 hm0
    exact decayEntry_bounds a.memory_decay_rate m0 hrate h1 h2 h3
  · intro hc
    refine ⟨List.insertionSort rankGE _,
      (List.perm_insertionSort rankGE _).symm, List.sorted_insertionSort rankGE _, ?_⟩
    simp only [updateMemory]
    rw [if_pos hc]
  · unfold calculateMessageImportance
    refine lt_min ?_ (by norm_num)
    have h1 : (0 : ℚ) ≤ if strContains (strLower msg2) (strLower b.philosophy) then 0.3 else 0 := by
      split <;> norm_num
    have h2 : (0 : ℚ) ≤ if strContains msg2 "?" then 0.2 else 0 := by
      split <;> norm_num
    have h3 : (0 : ℚ) ≤ if disagreementWords.any (fun w => strContains (strLower msg2) w)
        then 0.2 else 0 := by
      split <;> norm_num
    linarith
  · exact min_le_right _ _

/-- Witness for C4 at a concrete one-entry store receiving one in-range record. -/
theorem memory_invariants_after_update_witness :
    (updateMemory
      { mkAgent "Mill" "consequentialism" "q" with
          memory := [{ content := "the greater good", importance := 0.9, opinion_weight := 0.6,
                       timestamp := 0, decay_rounds := 0, speaker_philosophy := some "deontology" }] }
      "a new duty argument" 0.7 (some "deontology")).memory.length ≤ 15 :=
  (memory_invariants_after_update
    { mkAgent "Mill" "consequentialism" "q" with
        memory := [{ content := "the greater good", importance := 0.9, opinion_weight := 0.6,
                     timestamp := 0, decay_rounds := 0, speaker_philosophy := some "deontology" }] }
    "a new duty argument" 0.7 (some "deontology") "x" (mkAgent "Kant" "deontology" "p")
    (by norm_num) (by norm_num) (by decide) (by decide) (by decide)).1.1

/-! ## C5: the selection algorithm refines its specification -/

theorem length_eraseIdx' : ∀ (l : List α) (i : ℕ), i < l.length →
    (l.eraseIdx i).length = l.length - 1 := by
  intro l
  induction l with
  | nil => intro i h; simp at h
  | cons x xs ih =>
    intro i h
    cases i with
    | zero => simp [List.eraseIdx]
    | succ n =>
      simp only [List.eraseIdx, List.length_cons]
      rw [ih n (by simpa using h)]
      have : 0 < xs.length := lt_of_le_of_lt (Nat.zero_le n) (by simpa using h)
      omega

theorem drawUniform_cons (u : List Agent → ℕ) (p : Agent) (ps : List Agent) (c : ℕ) :
    drawUniform u (p :: ps) (c + 1) =
      (p :: ps).getD (u (p :: ps) % (p :: ps).length) p ::
        drawUniform u ((p :: ps).eraseIdx (u (p :: ps) % (p :: ps).length)) c := rfl

theorem drawUniform_congr (u : List Agent → ℕ) :
    ∀ (c1 c2 : ℕ) (pool : List Agent), min c1 pool.length = min c2 pool.length →
      drawUniform u pool c1 = drawUniform u pool c2 := by
  intro c1
  induction c1 with
  | zero =>
    intro c2 pool h
    cases c2 with
    | zero => rfl
    | succ m =>
      have : pool.length = 0 := by omega
      rw [List.length_eq_zero.mp this]
      rfl
  | succ n ih =>
    intro c2 pool h
    cases c2 with
    | zero =>
      have : pool.length = 0 := by omega
      rw [List.length_eq_zero.mp this]
      rfl
    | succ m =>
      cases pool with
      | nil => rfl
      | cons p ps =>
        rw [drawUniform_cons, drawUniform_cons]
        have hi : u (p :: ps) % (p :: ps).length < (p :: ps).length :=
          Nat.mod_lt _ (by simp)
        have herase : ((p :: ps).eraseIdx (u (p :: ps) % (p :: ps).length)).length =
            (p :: ps).length - 1 := length_eraseIdx' _ _ hi
        rw [ih m _ (by rw [herase]; simp only [List.length_cons] at h ⊢; omega)]

theorem length_filter_lt_of_mem_not {α : Type} (p : α → Bool) :
    ∀ (l : List α) (x : α), x ∈ l → p x = false → (l.filter p).length < l.length := by
  intro l
  induction l with
  | nil => intro x hx; simp at hx
  | cons y ys ih =>
    intro x hx hpx
    rcases List.mem_cons.mp hx with rfl | hx'
    · rw [List.filter_cons, hpx]
      simp only [List.length_cons]
      exact Nat.lt_succ_of_le (List.length_filter_le p ys)
    · rw [List.filter_cons]
      cases hpy : p y
      · simp only [List.length_cons]
        exact Nat.lt_succ_of_lt (ih x hx' hpx)
      · simp only [List.length_cons]
        exact Nat.succ_lt_succ (ih x hx' hpx)


theorem drawWeighted_cons (pk : List (Agent × ℚ) → ℕ) (p : Agent × ℚ)
    (ps : List (Agent × ℚ)) (c : ℕ) :
    drawWeighted pk (p :: ps) (c + 1) =
      ((p :: ps).getD (pk ((p :: ps).map fun x => (x.1, x.2 + 0.1)) % (p :: ps).length) p).1 ::
        drawWeighted pk
          ((p :: ps).filter (fun x => x.1 ≠
            ((p :: ps).getD (pk ((p :: ps).map fun x => (x.1, x.2 + 0.1)) % (p :: ps).length) p).1))
          c := rfl

theorem drawWeighted_congr (pk : List (Agent × ℚ) → ℕ) :
    ∀ (c1 c2 : ℕ) (pool : List (Agent × ℚ)), min c1 pool.length = min c2 pool.length →
      drawWeighted pk pool c1 = drawWeighted pk pool c2 := by
  intro c1
  induction c1 with
  | zero =>
    intro c2 pool h
    cases c2 with
    | zero => rfl
    | succ m =>
      have : pool.length = 0 := by omega
      rw [List.length_eq_zero.mp this]
      rfl
  | succ n ih =>
    intro c2 pool h
    cases c2 with
    | zero =>
      have : pool.length = 0 := by omega
      rw [List.length_eq_zero.mp this]
      rfl
    | succ m =>
      by_cases hnm : n = m
      · subst hnm
        rfl
      · cases pool with
        | nil => rfl
        | cons p ps =>
          rw [drawWeighted_cons, drawWeighted_cons]
          have hi : pk ((p :: ps).map (fun x => (x.1, x.2 + 0.1))) % (p :: ps).length
              < (p :: ps).length := Nat.mod_lt _ (by simp)
          have hlt := length_filter_lt_of_mem_not
            (fun x : Agent × ℚ => decide (x.1 ≠
              ((p :: ps).getD (pk ((p :: ps).map fun x => (x.1, x.2 + 0.1)) % (p :: ps).length) p).1))
            (p :: ps) _ (getD_mem (p :: ps) _ p hi) (by simp)
          rw [ih m ((p :: ps).filter (fun x => x.1 ≠
              ((p :: ps).getD (pk ((p :: ps).map fun x => (x.1, x.2 + 0.1)) % (p :: ps).length) p).1))
            (by simp only [List.length_cons] at h hlt ⊢; omega)]

/-- C5: `select_speakers` coincides, for every score list, speaker budget and
random oracle, with the specification's algorithm `specSelect`: sort by score
descending, pool the top `min(2k, n)`, uniform draws when the pool's weights
sum to zero, otherwise `k` weighted draws (weight `score + 0.1`) without
replacement, returning fewer speakers when the pool runs out. -/
theorem selectSpeakers_refines_spec (u : List Agent → ℕ) (pk : List (Agent × ℚ) → ℕ)
    (k : ℕ) (scores : List (Agent × ℚ)) :
    selectSpeakers u pk k scores = specSelect u pk k scores := by
  by_cases hempty : scores = []
  · subst hempty
    simp only [selectSpeakers, specSelect, if_pos rfl]
    cases k <;> rfl
  · simp only [selectSpeakers, specSelect, if_neg hempty]
    have hlen : (min k (List.insertionSort scoreGE scores).length) ≤
        (List.insertionSort scoreGE scores).length := min_le_right _ _
    rw [if_pos hlen]
    have hpool : min (min k (List.insertionSort scoreGE scores).length * 2)
        (List.insertionSort scoreGE scores).length =
        min (2 * k) (List.insertionSort scoreGE scores).length := by omega
    rw [hpool]
    by_cases hz : ((List.insertionSort scoreGE scores).take
        (min (2 * k) (List.insertionSort scoreGE scores).length) |>.map Prod.snd).sum = 0
    · rw [if_pos hz, if_pos hz]
      refine drawUniform_congr u _ _ _ ?_
      rw [List.length_map, List.length_take]
      omega
    · rw [if_neg hz, if_neg hz]
      refine drawWeighted_congr pk _ _ _ ?_
      rw [List.length_take]
      omega

/-! ## C2: belief-drift modifiers overwrite instead of accumulating -/

theorem driftStep_fields (ag : Agent) (ps : String × ℚ) :
    (driftStep ag ps).philosophy = ag.philosophy ∧
    (driftStep ag ps).initial_system_message = ag.initial_system_message ∧
    (driftStep ag ps).belief_drift_threshold = ag.belief_drift_threshold ∧
    (driftStep ag ps).memory = ag.memory := by
  unfold driftStep modifySystemPrompt
  split <;> exact ⟨rfl, rfl, rfl, rfl⟩

theorem drift_foldl :
    ∀ (l : List (String × ℚ)) (ag : Agent),
      (l.foldl driftStep ag).philosophy = ag.philosophy ∧
      (l.foldl driftStep ag).initial_system_message = ag.initial_system_message ∧
      (l.foldl driftStep ag).belief_drift_threshold = ag.belief_drift_threshold ∧
      (l.foldl driftStep ag).memory = ag.memory ∧
      (l.foldl driftStep ag).system_message =
        (match (l.filter (fun ps =>
            decide (ps.1 ≠ strLower ag.philosophy ∧ ag.belief_drift_threshold < ps.2))).getLast? with
         | none => ag.system_message
         | some ps => ag.initial_system_message ++ modificationText ag.philosophy ps.1 ps.2) := by
  intro l
  induction l with
  | nil => intro ag; exact ⟨rfl, rfl, rfl, rfl, rfl⟩
  | cons x xs ih =>
    intro ag
    obtain ⟨hp', hi', ht', hm'⟩ := driftStep_fields ag x
    obtain ⟨hp, hi, ht, hm, hs⟩ := ih (driftStep ag x)
    simp only [hp', hi', ht'] at hp hi ht hs
    simp only [hm'] at hm
    simp only [List.foldl_cons, List.filter_cons, decide_eq_true_eq]
    by_cases hq : (x.1 ≠ strLower ag.philosophy ∧ ag.belief_drift_threshold < x.2)
    · rw [if_pos hq]
      have hst : driftStep ag x = modifySystemPrompt ag x.1 x.2 := if_pos hq
      refine ⟨hp, hi, ht, hm, ?_⟩
      rcases hfx : xs.filter (fun ps =>
          decide (ps.1 ≠ strLower ag.philosophy ∧ ag.belief_drift_threshold < ps.2)) with _ | ⟨y, ys⟩
      · rw [hfx] at hs
        rw [hfx, hs, hst]
        rfl
      · rw [hfx] at hs
        rw [hfx, List.getLast?_cons_cons]
        exact hs
    · rw [if_neg hq]
      have hst : driftStep ag x = ag := if_neg hq
      rw [hst] at hp hi ht hm hs ⊢
      exact ⟨hp, hi, ht, hm, hs⟩

/-- C2 (amended): a drift check applies every qualifying origin persona in
turn, but each application *overwrites* the participant's effective text with
`initial text + that modifier alone` (there is no separate modifier log); after
the check the effective text equals the base text plus only the *last*
qualifying modifier, earlier applied modifiers having been discarded, and the
participant's memory and persona tag are untouched. -/
theorem drift_modifier_overwrites (a : Agent) :
    (checkBeliefDrift a).memory = a.memory ∧
    (checkBeliefDrift a).philosophy = a.philosophy ∧
    (checkBeliefDrift a).system_message =
      (match ((philosophyScores a.memory).filter (fun ps =>
          decide (ps.1 ≠ strLower a.philosophy ∧ a.belief_drift_threshold < ps.2))).getLast? with
       | none => a.system_message
       | some ps => a.initial_system_message ++ modificationText a.philosophy ps.1 ps.2) := by
  unfold checkBeliefDrift
  split
  · rename_i h
    rw [h]
    exact ⟨rfl, rfl, rfl⟩
  · obtain ⟨hp, hi, ht, hm, hs⟩ := drift_foldl (philosophyScores a.memory) a
    exact ⟨hm, hp, hs⟩

set_option maxRecDepth 100000 in
/-- Counterexample for C2 as stated: with two origin personas over threshold
(consequentialism at 0.9 and buddhist at 0.8, threshold 0.7, own persona
deontology), the resulting effective text is base + the buddhist modifier
alone, not base followed by both applied modifiers in application order. -/
theorem drift_modifier_accumulation_counterexample :
    (checkBeliefDrift
      { mkAgent "Kant" "deontology" "base" with
          memory := [{ content := "x", importance := 1, opinion_weight := 0.9,
                       timestamp := 0, decay_rounds := 0,
                       speaker_philosophy := some "consequentialism" },
                     { content := "y", importance := 1, opinion_weight := 0.8,
                       timestamp := 1, decay_rounds := 0,
                       speaker_philosophy := some "buddhist" }] }).system_message =
      "base" ++ modificationText "deontology" "buddhist" 0.8 ∧
    (checkBeliefDrift
      { mkAgent "Kant" "deontology" "base" with
          memory := [{ content := "x", importance := 1, opinion_weight := 0.9,
                       timestamp := 0, decay_rounds := 0,
                       speaker_philosophy := some "consequentialism" },
                     { content := "y", importance := 1, opinion_weight := 0.8,
                       timestamp := 1, decay_rounds := 0,
                       speaker_philosophy := some "buddhist" }] }).system_message ≠
      "base" ++ modificationText "deontology" "consequentialism" 0.9
        ++ modificationText "deontology" "buddhist" 0.8 :=
  ⟨by decide, by decide⟩

/-! ## C1: decay runs at session end (inside reflect), not once per round -/

theorem checkBeliefDrift_memory (a : Agent) : (checkBeliefDrift a).memory = a.memory := by
  unfold checkBeliefDrift
  split
  · rfl
  · exact (drift_foldl (philosophyScores a.memory) a).2.2.2.1

theorem reflect_fst_memory (refl : Agent → Option String) (a : Agent) :
    (reflect refl a).1.memory = a.memory.map (decayEntry a.memory_decay_rate) := by
  cases h : refl (applyBeliefDecay a) with
  | none => simp only [reflect, h]; rfl
  | some t =>
    simp only [reflect, h]
    rw [checkBeliefDrift_memory]
    rfl

theorem map_ext_eq (l : List α) {f g : α → β} (h : ∀ a, f a = g a) :
    l.map f = l.map g :=
  congrArg (fun fn => List.map fn l) (funext h)

theorem endDebate_memories (refl : Agent → Option String) (o : Orchestrator) :
    (endDebate refl o).1.agents.map (fun x => x.memory) =
      o.agents.map (fun x => x.memory.map (decayEntry x.memory_decay_rate)) := by
  unfold endDebate
  simp only [List.map_map]
  exact map_ext_eq o.agents (fun a => reflect_fst_memory refl a)

theorem umr_fold1_agents (rs : List (Agent × String)) :
    ∀ (o : Orchestrator),
      (rs.foldl (fun acc ar =>
        { acc with
          chat_history := acc.chat_history ++
            [{ speaker := ar.1.name, content := ar.2, round := acc.round_count,
               philosophy := some ar.1.philosophy }],
          agents := acc.agents.map (cooldownStep ar) }) o).agents =
      o.agents.map (fun b => rs.foldl (fun x ar => cooldownStep ar x) b) := by
  induction rs with
  | nil => intro o; simp
  | cons r rs ih =>
    intro o
    simp only [List.foldl_cons]
    rw [ih]
    rw [List.map_map]
    rfl

theorem umr_fold2_agents (rs : List (Agent × String)) :
    ∀ (o : Orchestrator),
      (rs.foldl (fun acc ar => { acc with agents := acc.agents.map (memoryStep ar) }) o).agents =
      o.agents.map (fun b => rs.foldl (fun x ar => memoryStep ar x) b) := by
  induction rs with
  | nil => intro o; simp
  | cons r rs ih =>
    intro o
    simp only [List.foldl_cons]
    rw [ih]
    rw [List.map_map]
    rfl

theorem cooldown_foldl_frame (rs : List (Agent × String)) :
    ∀ b : Agent, (rs.foldl (fun x ar => cooldownStep ar x) b).name = b.name ∧
      (rs.foldl (fun x ar => cooldownStep ar x) b).memory = b.memory := by
  induction rs with
  | nil => intro b; exact ⟨rfl, rfl⟩
  | cons r rs ih =>
    intro b
    simp only [List.foldl_cons]
    obtain ⟨h1, h2⟩ := ih (cooldownStep r b)
    have hstep : (cooldownStep r b).name = b.name ∧ (cooldownStep r b).memory = b.memory := by
      unfold cooldownStep
      split <;> exact ⟨rfl, rfl⟩
    exact ⟨h1.trans hstep.1, h2.trans hstep.2⟩

theorem memory_foldl_frame (rs : List (Agent × String)) :
    ∀ b : Agent, (rs.foldl (fun x ar => memoryStep ar x) b).name = b.name ∧
      ∀ m ∈ (rs.foldl (fun x ar => memoryStep ar x) b).memory,
        m ∈ b.memory ∨ m.decay_rounds = 0 := by
  induction rs with
  | nil => intro b; exact ⟨rfl, fun m hm => Or.inl hm⟩
  | cons r rs ih =>
    intro b
    simp only [List.foldl_cons]
    obtain ⟨h1, h2⟩ := ih (memoryStep r b)
    have hstep : (memoryStep r b).name = b.name ∧
        ∀ m ∈ (memoryStep r b).memory, m ∈ b.memory ∨ m.decay_rounds = 0 := by
      unfold memoryStep
      split
      · exact ⟨rfl, fun m hm => Or.inl hm⟩
      · refine ⟨rfl, fun m hm => ?_⟩
        rcases List.mem_append.mp
          (updateMemory_mem_sub b r.2 (calculateMessageImportance r.2 b)
            (some r.1.philosophy) m hm) with h | h
        · exact Or.inl h
        · right
          rw [List.mem_singleton.mp h]
          rfl
    refine ⟨h1.trans hstep.1, fun m hm => ?_⟩
    rcases h2 m hm with h | h
    · exact hstep.2 m h
    · exact Or.inr h

theorem updateMemoryAndReflection_frame (o : Orchestrator) (rs : List (Agent × String)) :
    ∀ b' ∈ (updateMemoryAndReflection o rs).agents, ∃ b ∈ o.agents,
      b.name = b'.name ∧ ∀ m ∈ b'.memory, m ∈ b.memory ∨ m.decay_rounds = 0 := by
  intro b' hb'
  simp only [updateMemoryAndReflection] at hb'
  rw [umr_fold2_agents, umr_fold1_agents, List.map_map] at hb'
  obtain ⟨b, hb, rfl⟩ := List.mem_map.mp hb'
  have h1 := cooldown_foldl_frame rs b
  have h2 := memory_foldl_frame rs (rs.foldl (fun x ar => cooldownStep ar x) b)
  refine ⟨b, hb, (h2.1.trans h1.1).symm, fun m hm => ?_⟩
  rcases h2.2 m hm with h | h
  · exact Or.inl (h1.2 ▸ h)
  · exact Or.inr h

theorem collectIntent_memories (jit : ℕ → ℚ) (o : Orchestrator) :
    (collectIntentToSpeak jit o).1.agents.map (fun x => (x.name, x.memory)) =
      o.agents.map (fun x => (x.name, x.memory)) := by
  unfold collectIntentToSpeak
  simp only [List.map_map]
  have heq : ((fun x : Agent => (x.name, x.memory)) ∘
      (fun p : Agent × ℚ => if p.1.cooldown = 0 then p.1 else reduceCooldown p.1) ∘
      (fun ia : ℕ × Agent => (ia.2, computeReactivity ia.2 o.chat_history (jit ia.1)))) =
      ((fun x : Agent => (x.name, x.memory)) ∘ Prod.snd) := by
    funext ia
    simp only [Function.comp]
    split
    · rfl
    · unfold reduceCooldown
      split <;> rfl
  rw [heq, enum_map_snd_comp]

/-- C1 (amended): `_apply_belief_decay` is never invoked during a debate round:
`collect_intent_to_speak` leaves every memory untouched and every entry
surviving `update_memory_and_reflection` is either an unchanged pre-existing
entry or a fresh age-0 record.  Decay happens exactly once per participant at
session end, inside `reflect` (called from `end_debate`): there each entry's
age is incremented by 1, its importance is multiplied by
`max(0.1, 1 − decayRate × age)`, its opinion weight is multiplied by 0.95 when
`|opinion weight| > 0.1`, and the decay step removes nothing (entries with
importance ≤ 0.2 are dropped only inside `update_memory`). -/
theorem decay_only_at_session_end (refl : Agent → Option String) (jit : ℕ → ℚ)
    (o : Orchestrator) (rs : List (Agent × String)) (rate : ℚ) (m : MemoryEntry) (a : Agent) :
    ((endDebate refl o).1.agents.map (fun x => x.memory) =
      o.agents.map (fun x => x.memory.map (decayEntry x.memory_decay_rate))) ∧
    ((decayEntry rate m).decay_rounds = m.decay_rounds + 1 ∧
     (decayEntry rate m).importance =
       m.importance * max 0.1 (1 - rate * ((m.decay_rounds + 1 : ℕ) : ℚ)) ∧
     (decayEntry rate m).opinion_weight =
       (if 0.1 < |m.opinion_weight| then m.opinion_weight * 0.95 else m.opinion_weight)) ∧
    ((applyBeliefDecay a).memory.length = a.memory.length) ∧
    (∀ b' ∈ (updateMemoryAndReflection o rs).agents, ∃ b ∈ o.agents,
      b.name = b'.name ∧ ∀ mm ∈ b'.memory, mm ∈ b.memory ∨ mm.decay_rounds = 0) ∧
    ((collectIntentToSpeak jit o).1.agents.map (fun x => (x.name, x.memory)) =
      o.agents.map (fun x => (x.name, x.memory))) :=
  ⟨endDebate_memories refl o, ⟨rfl, rfl, rfl⟩, by simp [applyBeliefDecay],
    updateMemoryAndReflection_frame o rs, collectIntent_memories jit o⟩

/-- Witness for C1 (amended) at a concrete one-participant session whose only
memory entry is decayed exactly once by `end_debate`. -/
theorem decay_only_at_session_end_witness :
    (endDebate (fun _ => none)
      { name := "Moderator",
        agents := [{ mkAgent "Mill" "consequentialism" "q" with
          memory := [{ content := "socrates", importance := 0.9, opinion_weight := 0.5,
                       timestamp := 0, decay_rounds := 0, speaker_philosophy := none }] }],
        chat_history := [], current_topic := "t", round_count := 0, max_rounds := 10,
        debate_active := true, speakers_per_round := 2 }).1.agents.map (fun x => x.memory) =
    [{ mkAgent "Mill" "consequentialism" "q" with
        memory := [{ content := "socrates", importance := 0.9, opinion_weight := 0.5,
                     timestamp := 0, decay_rounds := 0, speaker_philosophy := none }] }].map
      (fun x => x.memory.map (decayEntry x.memory_decay_rate)) :=
  (decay_only_at_session_end (fun _ => none) (fun _ => 0)
    { name := "Moderator",
      agents := [{ mkAgent "Mill" "consequentialism" "q" with
        memory := [{ content := "socrates", importance := 0.9, opinion_weight := 0.5,
                     timestamp := 0, decay_rounds := 0, speaker_philosophy := none }] }],
      chat_history := [], current_topic := "t", round_count := 0, max_rounds := 10,
      debate_active := true, speakers_per_round := 2 }
    [] 0.05
    { content := "socrates", importance := 0.9, opinion_weight := 0.5,
      timestamp := 0, decay_rounds := 0, speaker_philosophy := none }
    (mkAgent "Mill" "consequentialism" "q")).1

set_option maxRecDepth 100000 in
/-- Counterexample for C1 as stated: running one full debate round (Kant is
selected and speaks, Mill observes) leaves Mill's pre-existing memory entry
with age 0 and importance 0.9, exactly as before the round — the decayed form
of that entry (age 1, importance 0.9 × 0.95) differs, so `decayAndEvict` was
not invoked during the round. -/
theorem decay_once_per_round_counterexample :
    ((runDebateRound
        ⟨fun _ => 0, fun _ => 0, fun _ => 0, fun _ => 0, fun _ => 0,
         fun _ => some "hi", fun _ => none, 0.5, 0, 0⟩
        { name := "Moderator",
          agents := [mkAgent "Kant" "deontology" "p",
                     { mkAgent "Mill" "consequentialism" "q" with
                        memory := [{ content := "socrates", importance := 0.9,
                                     opinion_weight := 0, timestamp := 0, decay_rounds := 0,
                                     speaker_philosophy := none }] }],
          chat_history := [{ speaker := "Moderator", content := "why?", round := 0,
                             philosophy := none }],
          current_topic := "t", round_count := 0, max_rounds := 10,
          debate_active := true, speakers_per_round := 1 }).1.agents.map
      (fun b => b.memory.map (fun mm => (mm.decay_rounds, mm.importance)))) =
      [[], [(0, 0.9), (0, 0.5)]] ∧
    decayEntry 0.05
      { content := "socrates", importance := 0.9, opinion_weight := 0, timestamp := 0,
        decay_rounds := 0, speaker_philosophy := none } ≠
      { content := "socrates", importance := 0.9, opinion_weight := 0, timestamp := 0,
        decay_rounds := 0, speaker_philosophy := none } :=
  ⟨by decide, by decide⟩

/-! ## C9: the continuation check mutates scheduler state -/

set_option maxRecDepth 100000 in
/-- C9: `should_continue_debate` is state-mutating — it calls
`collect_intent_to_speak`, which decrements every cooling-down participant's
cooldown — and it runs up to three times per driver iteration (driver loop
guard, start of `run_debate_round`, and the round result's `continue` field),
on top of the round's own scoring pass.  Concretely: Mill starts with cooldown
3, never speaks during the driver iteration (only Kant is selected), yet
Mill's cooldown is 0 afterwards — a decrease of 3, more than 1, between two
consecutive speaking opportunities. -/
theorem continuation_check_mutates_cooldowns :
    (({ name := "Moderator",
        agents := [mkAgent "Kant" "deontology" "p",
                   { mkAgent "Mill" "consequentialism" "q" with cooldown := 3 }],
        chat_history := [{ speaker := "Moderator", content := "why?", round := 0,
                           philosophy := none }],
        current_topic := "t", round_count := 0, max_rounds := 10,
        debate_active := true, speakers_per_round := 2 } : Orchestrator).agents.map
      (fun b => (b.name, b.cooldown)) = [("Kant", 0), ("Mill", 3)]) ∧
    ((shouldContinueDebate (fun _ => 0)
      { name := "Moderator",
        agents := [mkAgent "Kant" "deontology" "p",
                   { mkAgent "Mill" "consequentialism" "q" with cooldown := 3 }],
        chat_history := [{ speaker := "Moderator", content := "why?", round := 0,
                           philosophy := none }],
        current_topic := "t", round_count := 0, max_rounds := 10,
        debate_active := true, speakers_per_round := 2 }).1 ≠
      { name := "Moderator",
        agents := [mkAgent "Kant" "deontology" "p",
                   { mkAgent "Mill" "consequentialism" "q" with cooldown := 3 }],
        chat_history := [{ speaker := "Moderator", content := "why?", round := 0,
                           philosophy := none }],
        current_topic := "t", round_count := 0, max_rounds := 10,
        debate_active := true, speakers_per_round := 2 }) ∧
    (Option.map RoundResult.speakers
      (runDebateRound
        ⟨fun _ => 0, fun _ => 0, fun _ => 0, fun _ => 0, fun _ => 0,
         fun _ => some "hi", fun _ => none, 0.5, 0, 0⟩
        (shouldContinueDebate (fun _ => 0)
          { name := "Moderator",
            agents := [mkAgent "Kant" "deontology" "p",
                       { mkAgent "Mill" "consequentialism" "q" with cooldown := 3 }],
            chat_history := [{ speaker := "Moderator", content := "why?", round := 0,
                               philosophy := none }],
            current_topic := "t", round_count := 0, max_rounds := 10,
            debate_active := true, speakers_per_round := 2 }).1).2 = some ["Kant"]) ∧
    ((runDebateRound
        ⟨fun _ => 0, fun _ => 0, fun _ => 0, fun _ => 0, fun _ => 0,
         fun _ => some "hi", fun _ => none, 0.5, 0, 0⟩
        (shouldContinueDebate (fun _ => 0)
          { name := "Moderator",
            agents := [mkAgent "Kant" "deontology" "p",
                       { mkAgent "Mill" "consequentialism" "q" with cooldown := 3 }],
            chat_history := [{ speaker := "Moderator", content := "why?", round := 0,
                               philosophy := none }],
            current_topic := "t", round_count := 0, max_rounds := 10,
            debate_active := true, speakers_per_round := 2 }).1).1.agents.map
      (fun b => (b.name, b.cooldown)) = [("Kant", 1), ("Mill", 0)]) :=
  ⟨by decide, by decide, by decide, by decide⟩

end Debate
